import Mathlib

/-!
Verification of the connection-handling core of the Belch proxy
(`src/main.rs`) against its specification.

The embedding is character-level: the Rust code manipulates UTF-8 strings
obtained from `String::from_utf8_lossy`; we model such strings as
`List Char` and re-implement, from the source, the exact string
operations the code uses (`str::lines`, `split_whitespace`, `splitn`,
`split(':')`, `parse::<u16>`, `to_lowercase().starts_with`, `replace`,
`eq_ignore_ascii_case`).  `from_utf8_lossy` itself is total, so
quantifying over all `List Char` covers (a superset of) all byte buffers
a client can send.
-/

namespace Belch

/-! ## Character / string primitives mirroring the Rust std operations -/

/-- Whitespace as used by `str::split_whitespace` on the ASCII range
(Rust uses full Unicode whitespace; the extra Unicode code points do not
occur in any claim and only enlarge the set of token shapes we must
handle, which the proofs below never rely on excluding). -/
def isWs (c : Char) : Bool :=
  c = ' ' || c = '\t' || c = '\n' || c = '\r'

/-- ASCII lower-casing of one character, as `char::to_ascii_lowercase`. -/
def lowerChar (c : Char) : Char :=
  if 'A' ≤ c ∧ c ≤ 'Z' then Char.ofNat (c.toNat + 32) else c

/-- ASCII lower-casing of a string.  Models `str::to_lowercase` for the
purpose of the `starts_with("host:")` test in `main.rs` line 136: no
non-ASCII character lower-cases to any of `h`, `o`, `s`, `t`, `:`. -/
def asciiLower (l : List Char) : List Char := l.map lowerChar

/-- `l.starts_with(pre)` on strings. -/
def startsWithL : List Char → List Char → Bool
  | _, [] => true
  | [], _ :: _ => false
  | c :: cs, p :: ps => c = p && startsWithL cs ps

/-- Remove one trailing `'\r'` if present (the `\r\n` handling of
`str::lines`). -/
def stripCr (l : List Char) : List Char :=
  if l.getLast? = some '\r' then l.dropLast else l

/-- Worker for `rlines`, accumulating the current (reversed) line. -/
def rlinesAux : List Char → List Char → List (List Char)
  | cur, [] => if cur = [] then [] else [cur.reverse]
  | cur, c :: rest =>
    if c = '\n' then stripCr cur.reverse :: rlinesAux [] rest
    else rlinesAux (c :: cur) rest

/-- `str::lines`: split at `'\n'`, strip a `'\r'` directly before each
`'\n'`, final line terminator optional, a lone final line without
terminator keeps any trailing `'\r'`. -/
def rlines (s : List Char) : List (List Char) := rlinesAux [] s

/-- Worker for `splitWs`. -/
def splitWsAux : List Char → List Char → List (List Char)
  | cur, [] => if cur = [] then [] else [cur.reverse]
  | cur, c :: rest =>
    if isWs c then
      if cur = [] then splitWsAux [] rest else cur.reverse :: splitWsAux [] rest
    else splitWsAux (c :: cur) rest

/-- `str::split_whitespace`: maximal runs of non-whitespace characters. -/
def splitWs (s : List Char) : List (List Char) := splitWsAux [] s

/-! ## The log store and cursor (`struct App`, `main.rs` lines 28-57) -/

/-- `struct HttpLog` (lines 28-33). -/
structure HttpLog where
  url : List Char
  request : List Char
  response : List Char
deriving DecidableEq

/-- `struct App` (lines 35-38): the log store (a `VecDeque` used only
via `push_back` / `get` / `len` / `iter`, hence faithfully a list) and
the selection cursor. -/
structure App where
  logs : List HttpLog
  selected : Nat
deriving DecidableEq

/-- `App::next` (lines 44-48). -/
def App.next (a : App) : App :=
  if a.selected + 1 < a.logs.length then { a with selected := a.selected + 1 } else a

/-- `App::previous` (lines 49-53). -/
def App.previous (a : App) : App :=
  if 0 < a.selected then { a with selected := a.selected - 1 } else a

/-- `App::selected_log` (lines 54-56). -/
def App.selectedLog (a : App) : Option HttpLog := a.logs[a.selected]?

/-- Every mutation of `App` performed anywhere in `main.rs`:
`logs.push_back` (lines 91, 119, 150) and the two cursor moves issued by
the key handler (lines 243-244).  No other statement in the program
writes to an `App`. -/
inductive AppOp
  | pushBack (r : HttpLog)
  | moveNext
  | movePrevious
deriving DecidableEq

/-- Effect of one `AppOp` on the shared state; `push_back` on a
`VecDeque` appends at the end. -/
def applyOp (a : App) : AppOp → App
  | .pushBack r => { a with logs := a.logs ++ [r] }
  | .moveNext => a.next
  | .movePrevious => a.previous

/-- A whole run of the process, as far as `App` is concerned, is a
sequence of `AppOp`s. -/
def applyOps (a : App) (ops : List AppOp) : App := ops.foldl applyOp a

/-! ## The accept loop (`main.rs` lines 64-68) -/

/-- Outcome of one iteration of the accept loop. -/
inductive AcceptOutcome
  | panicked
  | handled
deriving DecidableEq

/-- One iteration of the accept loop, line 67:
`let (mut client, _) = listener.accept().await.unwrap();` —
`unwrap` on an `Err` panics the listener thread, otherwise the
connection is dispatched to a fresh task and the loop continues.
(The bind at line 64 is `unwrap`ped the same way.) -/
def acceptStep (r : Except Unit Unit) : AcceptOutcome :=
  match r with
  | .error _ => .panicked
  | .ok _ => .handled

/-! ## Request classification and target resolution
(`main.rs` lines 76-81 and 126-142) -/

/-- Line 78: `let start = lines.next().unwrap_or_default();`. -/
def firstLine (req : List Char) : List Char := (rlines req).headD []

/-- Lines 79 / 132: whitespace tokens of the request line.  The forward
branch (line 132) re-tokenizes `request`, which is a clone of the same
buffer, so the tokens coincide. -/
def startTokens (req : List Char) : List (List Char) := splitWs (firstLine req)

/-- Line 80 and line 133: first token, or `""`. -/
def methodTok (req : List Char) : List Char := ((startTokens req).get? 0).getD []

/-- Line 81: second token, or `""` (classification default). -/
def targetTok (req : List Char) : List Char := ((startTokens req).get? 1).getD []

/-- Line 134: second token, or `"/"` (forward-branch default). -/
def forwardPath (req : List Char) : List Char :=
  ((startTokens req).get? 1).getD ['/']

/-- Line 136 predicate: `l.to_lowercase().starts_with("host:")`. -/
def isHostLine (l : List Char) : Bool := startsWithL (asciiLower l) ("host:".toList)

/-- Line 137: `l.splitn(2, ' ').nth(1)` — the part after the first
space, if the line contains a space at all. -/
def afterFirstSpace (l : List Char) : Option (List Char) :=
  if ' ' ∈ l then some ((l.dropWhile (fun c => c ≠ ' ')).tail) else none

/-- Lines 135-138: the `Host` header value, defaulting to `"127.0.0.1"`. -/
def hostHeaderValue (req : List Char) : List Char :=
  (((rlines req).find? isHostLine).bind afterFirstSpace).getD ("127.0.0.1".toList)

/-- Line 140: `hp.next()` on `host_hdr.split(':')` always yields the
part before the first `':'` (the `unwrap_or` is dead). -/
def forwardHost (req : List Char) : List Char :=
  (hostHeaderValue req).takeWhile (fun c => c ≠ ':')

/-- Second field of `split(':')`: present iff the string contains a
`':'`; the text after the first `':'` up to the next one. -/
def secondColonPart (l : List Char) : Option (List Char) :=
  if (':' : Char) ∈ l then
    some (((l.dropWhile (fun c => c ≠ ':')).tail).takeWhile (fun c => c ≠ ':'))
  else none

/-- `str::parse::<u16>`: an optional leading `'+'`, then at least one
ASCII digit, value at most 65535. -/
def stripPlus (l : List Char) : List Char :=
  match l with
  | c :: rest => if c = '+' then rest else l
  | [] => l

/-- Decimal value of a digit string. -/
def digitsVal (l : List Char) : Nat :=
  l.foldl (fun a c => a * 10 + (c.toNat - 48)) 0

/-- `str::parse::<u16>().ok()`. -/
def parseU16 (l : List Char) : Option Nat :=
  if stripPlus l ≠ [] ∧ (stripPlus l).all (fun c => c.isDigit) then
    if digitsVal (stripPlus l) < 65536 then some (digitsVal (stripPlus l)) else none
  else none

/-- Line 141: the resolved port, defaulting to 80. -/
def forwardPort (req : List Char) : Nat :=
  ((secondColonPart (hostHeaderValue req)).bind parseU16).getD 80

/-- `str::eq_ignore_ascii_case` (line 86). -/
def eqIgnoreAsciiCase (a b : List Char) : Bool := asciiLower a == asciiLower b

/-- Line 86: is this a CONNECT request? -/
def isConnectReq (req : List Char) : Bool :=
  eqIgnoreAsciiCase (methodTok req) ("CONNECT".toList)

/-- Line 142: the reconstructed minimal upstream request. -/
def buildForward (meth path host : List Char) : List Char :=
  meth ++ " ".toList ++ path ++ " HTTP/1.1\r\nHost: ".toList ++ host ++
    "\r\nConnection: close\r\n\r\n".toList

/-- Line 151: the record label of the forward strategy. -/
def forwardLabel (meth path host : List Char) : List Char :=
  meth ++ " ".toList ++ path ++ " [Host: ".toList ++ host ++ "]".toList

/-- Line 147: `replace("\r\n", "\n")` — left-to-right, non-overlapping. -/
def replCRLF : List Char → List Char
  | '\r' :: '\n' :: rest => '\n' :: replCRLF rest
  | c :: rest => c :: replCRLF rest
  | [] => []

/-! ## The protocol handler as an effect trace
(`main.rs` lines 69-159) -/

/-- The externally visible actions a handler performs, in order. -/
inductive Effect
  | writeClient (data : List Char)
  | writeUpstream (data : List Char)
  | append (rec : HttpLog)
deriving DecidableEq

/-- The network environment of one connection: whether / how the
upstream connect calls succeed.  For the tunnel branch (line 98) a
successful connect carries the completed chunk exchanges the relay loop
observes plus an optional final client chunk after which the upstream
side closes; for the forward branch (line 143) a successful connect
carries the bytes `read_to_end` returns. -/
structure Net where
  tunnel : Option (List (List Char × List Char) × Option (List Char))
  forwardResp : Option (List Char)

/-- Line 88: the fixed tunnel acknowledgement. -/
def ackBytes : List Char := "HTTP/1.1 200 Connection Established\r\n\r\n".toList

/-- Line 94. -/
def tunnelEstablished : List Char := "[Tunnel established]".toList

/-- Lines 102-124: each completed iteration writes the client chunk
upstream, writes the upstream chunk back, and appends one record; a
final client chunk with no upstream answer is only written upstream. -/
def tunnelLoopEffects (target : List Char) (xs : List (List Char × List Char))
    (fin : Option (List Char)) : List Effect :=
  (xs.map fun p =>
    [Effect.writeUpstream p.1, Effect.writeClient p.2,
     Effect.append ⟨"Tunnel ".toList ++ target, p.1, p.2⟩]).flatten ++
  (match fin with
   | none => []
   | some c => [Effect.writeUpstream c])

/-- Lines 86-125: the CONNECT branch.  The acknowledgement write
(line 88) and the tunnel-establishment record (lines 89-96) happen
before the upstream connect attempt (line 98). -/
def connectEffects (req : List Char) (net : Net) : List Effect :=
  Effect.writeClient ackBytes ::
  Effect.append ⟨"CONNECT ".toList ++ targetTok req, firstLine req, tunnelEstablished⟩ ::
  (match net.tunnel with
   | none => []
   | some (xs, fin) => tunnelLoopEffects (targetTok req) xs fin)

/-- Lines 126-157: the forward branch.  On connect failure nothing at
all happens; on success the reconstructed request is written, one record
is appended (lines 148-155), then the raw response is relayed
(line 156). -/
def forwardEffects (req : List Char) (net : Net) : List Effect :=
  match net.forwardResp with
  | none => []
  | some resp =>
    [Effect.writeUpstream (buildForward (methodTok req) (forwardPath req) (forwardHost req)),
     Effect.append ⟨forwardLabel (methodTok req) (forwardPath req) (forwardHost req),
       buildForward (methodTok req) (forwardPath req) (forwardHost req),
       replCRLF resp⟩,
     Effect.writeClient resp]

/-- Lines 86-158: branch on the method. -/
def handle (req : List Char) (net : Net) : List Effect :=
  if isConnectReq req then connectEffects req net else forwardEffects req net

/-- Lines 72-75: an empty or failed initial read abandons the
connection with no effects at all. -/
def handleRead (r : Option (List Char)) (net : Net) : List Effect :=
  match r with
  | none => []
  | some [] => []
  | some req => handle req net

/-- The records appended by a trace, in order. -/
def appendedRecords (es : List Effect) : List HttpLog :=
  es.filterMap fun e => match e with | .append r => some r | _ => none

/-- The chunks written to the client by a trace, in order. -/
def clientWrites (es : List Effect) : List (List Char) :=
  es.filterMap fun e => match e with | .writeClient d => some d | _ => none

/-- Concrete inputs used in counterexamples and witnesses. -/
def connectFailReq : List Char := "CONNECT example.com:443 HTTP/1.1\r\n\r\n".toList

def noNet : Net := ⟨none, none⟩

def absUriReq : List Char := "GET http://example.com:8080/foo HTTP/1.1\r\n\r\n".toList

def absUriHostReq : List Char :=
  "GET http://example.com/ HTTP/1.1\r\nHost: other.test:9\r\n\r\n".toList

def plainHostReq : List Char := "GET /x HTTP/1.1\r\nHost: example.com:8080\r\n\r\n".toList

def hostNoPortReq : List Char := "GET /x HTTP/1.1\r\nHost: example.com\r\n\r\n".toList

def noHostReq : List Char := "GET /x HTTP/1.1\r\n\r\n".toList

def bareLineReq : List Char := "\r\n".toList

def respSample : List Char := "HTTP/1.1 200 OK\r\n\r\nok".toList

/-- Number of header lines (lines after the request line, under the
`str::lines` splitting the code itself uses) that case-insensitively
carry the name `Host`.  Used to state C6. -/
def countHostHeaders (f : List Char) : Nat :=
  ((rlines f).drop 1).countP isHostLine

/-- Number of header lines that read exactly `Connection: close`. -/
def countConnClose (f : List Char) : Nat :=
  ((rlines f).drop 1).countP (fun l => l = "Connection: close".toList)

/-! ## Helper lemmas -/

theorem dropWhile_neq_append (x : Char) (a b : List Char) (h : ∀ c ∈ a, c ≠ x) :
    (a ++ x :: b).dropWhile (fun c => c ≠ x) = x :: b := by
  induction a with
  | nil => simp [List.dropWhile_cons]
  | cons c a ih =>
    have hc : c ≠ x := h c (by simp)
    simp only [List.cons_append, List.dropWhile_cons, decide_eq_true_eq]
    rw [if_pos hc]
    exact ih (fun d hd => h d (by simp [hd]))

theorem takeWhile_neq_append (x : Char) (a b : List Char) (h : ∀ c ∈ a, c ≠ x) :
    (a ++ x :: b).takeWhile (fun c => c ≠ x) = a := by
  induction a with
  | nil => simp [List.takeWhile_cons]
  | cons c a ih =>
    have hc : c ≠ x := h c (by simp)
    simp only [List.cons_append, List.takeWhile_cons, decide_eq_true_eq]
    rw [if_pos hc]
    rw [ih (fun d hd => h d (by simp [hd]))]

theorem takeWhile_neq_all (x : Char) (a : List Char) (h : ∀ c ∈ a, c ≠ x) :
    a.takeWhile (fun c => c ≠ x) = a := by
  induction a with
  | nil => rfl
  | cons c a ih =>
    have hc : c ≠ x := h c (by simp)
    simp only [List.takeWhile_cons, decide_eq_true_eq]
    rw [if_pos hc]
    rw [ih (fun d hd => h d (by simp [hd]))]

theorem isDigit_ne_colon {c : Char} (h : c.isDigit = true) : c ≠ ':' := by
  intro he
  rw [he] at h
  exact absurd h (by decide)

theorem parseU16_lt {l : List Char} {v : Nat} (h : parseU16 l = some v) : v < 65536 := by
  unfold parseU16 at h
  split at h
  · split at h
    · cases h
      assumption
    · cases h
  · cases h

theorem parseU16_chars {l : List Char} {v : Nat} (h : parseU16 l = some v) :
    ∀ c ∈ l, c ≠ ':' := by
  unfold parseU16 at h
  split at h
  · next hd =>
    intro c hc
    cases l with
    | nil => cases hc
    | cons a rest =>
      by_cases ha : a = '+'
      · have hs : stripPlus (a :: rest) = rest := by simp [stripPlus, ha]
        rw [hs] at hd
        rcases List.mem_cons.mp hc with hca | hcr
        · subst hca; rw [ha]; decide
        · exact isDigit_ne_colon (List.all_eq_true.mp hd.2 c hcr)
      · have hs : stripPlus (a :: rest) = a :: rest := by simp [stripPlus, ha]
        rw [hs] at hd
        exact isDigit_ne_colon (List.all_eq_true.mp hd.2 c hc)
  · cases h

theorem parseU16_takeWhile {l : List Char} {v : Nat} (h : parseU16 l = some v) :
    l.takeWhile (fun c => c ≠ ':') = l :=
  takeWhile_neq_all ':' l (parseU16_chars h)

theorem hostHeaderValue_of_find {req nm v : List Char}
    (hfind : (rlines req).find? isHostLine = some (nm ++ ' ' :: v))
    (hnm : ∀ c ∈ nm, c ≠ ' ') :
    hostHeaderValue req = v := by
  unfold hostHeaderValue
  rw [hfind]
  have ha : afterFirstSpace (nm ++ ' ' :: v) = some v := by
    unfold afterFirstSpace
    rw [if_pos (by simp), dropWhile_neq_append ' ' nm v hnm]
    rfl
  simp [ha]

theorem mem_of_get?_eq_some {α : Type} {l : List α} {n : Nat} {t : α}
    (h : l.get? n = some t) : t ∈ l := by
  induction l generalizing n with
  | nil => cases h
  | cons a l ih =>
    cases n with
    | zero => cases h; exact List.mem_cons_self _ _
    | succ n => exact List.mem_cons_of_mem _ (ih h)

theorem mem_of_mem_tail {c : Char} {l : List Char} (h : c ∈ l.tail) : c ∈ l := by
  cases l with
  | nil => cases h
  | cons a l => exact List.mem_cons_of_mem _ h

theorem mem_of_mem_dropWhile {c : Char} (p : Char → Bool) :
    ∀ (l : List Char), c ∈ l.dropWhile p → c ∈ l
  | [], h => h
  | a :: l, h => by
    rw [List.dropWhile_cons] at h
    split at h
    · exact List.mem_cons_of_mem _ (mem_of_mem_dropWhile p l h)
    · exact h

theorem mem_of_mem_takeWhile {c : Char} (p : Char → Bool) :
    ∀ (l : List Char), c ∈ l.takeWhile p → c ∈ l
  | [], h => h
  | a :: l, h => by
    rw [List.takeWhile_cons] at h
    split at h
    · rcases List.mem_cons.mp h with rfl | h'
      · exact List.mem_cons_self _ _
      · exact List.mem_cons_of_mem _ (mem_of_mem_takeWhile p l h')
    · cases h

theorem mem_of_mem_stripCr {c : Char} {l : List Char} (h : c ∈ stripCr l) : c ∈ l := by
  unfold stripCr at h
  split at h
  · rw [List.dropLast_eq_take] at h
    exact List.take_subset _ _ h
  · exact h

theorem isWs_eq_false_ne_nl {c : Char} (h : isWs c = false) : c ≠ '\n' := by
  intro he
  rw [he] at h
  exact absurd h (by decide)

theorem splitWsAux_mem_no_ws :
    ∀ (s cur : List Char), (∀ c ∈ cur, isWs c = false) →
    ∀ t ∈ splitWsAux cur s, ∀ c ∈ t, isWs c = false
  | [], cur, hcur, t, ht => by
    unfold splitWsAux at ht
    split at ht
    · cases ht
    · intro c hc
      rw [List.mem_singleton.mp ht] at hc
      exact hcur c (List.mem_reverse.mp hc)
  | x :: s, cur, hcur, t, ht => by
    unfold splitWsAux at ht
    by_cases hx : isWs x = true
    · rw [if_pos hx] at ht
      split at ht
      · exact splitWsAux_mem_no_ws s [] (by simp) t ht
      · rcases List.mem_cons.mp ht with rfl | ht'
        · intro c hc
          exact hcur c (List.mem_reverse.mp hc)
        · exact splitWsAux_mem_no_ws s [] (by simp) t ht'
    · rw [if_neg hx] at ht
      refine splitWsAux_mem_no_ws s (x :: cur) ?_ t ht
      intro c hc
      rcases List.mem_cons.mp hc with rfl | h'
      · simpa using hx
      · exact hcur c h'

theorem startTokens_no_ws (req : List Char) :
    ∀ t ∈ startTokens req, ∀ c ∈ t, isWs c = false :=
  splitWsAux_mem_no_ws (firstLine req) [] (by simp)

theorem methodTok_no_nl (req : List Char) : ∀ c ∈ methodTok req, c ≠ '\n' := by
  intro c hc
  unfold methodTok at hc
  cases hg : (startTokens req).get? 0 with
  | none => rw [hg] at hc; cases hc
  | some t =>
    rw [hg] at hc
    exact isWs_eq_false_ne_nl
      (startTokens_no_ws req t (mem_of_get?_eq_some hg) c hc)

theorem forwardPath_no_nl (req : List Char) : ∀ c ∈ forwardPath req, c ≠ '\n' := by
  intro c hc
  unfold forwardPath at hc
  cases hg : (startTokens req).get? 1 with
  | none =>
    rw [hg] at hc
    have : c = '/' := by simpa using hc
    rw [this]; decide
  | some t =>
    rw [hg] at hc
    exact isWs_eq_false_ne_nl
      (startTokens_no_ws req t (mem_of_get?_eq_some hg) c hc)

theorem rlinesAux_mem_no_nl :
    ∀ (s cur : List Char), (∀ c ∈ cur, c ≠ '\n') →
    ∀ l ∈ rlinesAux cur s, ∀ c ∈ l, c ≠ '\n'
  | [], cur, hcur, l, hl => by
    unfold rlinesAux at hl
    split at hl
    · cases hl
    · intro c hc
      rw [List.mem_singleton.mp hl] at hc
      exact hcur c (List.mem_reverse.mp hc)
  | x :: s, cur, hcur, l, hl => by
    unfold rlinesAux at hl
    by_cases hx : x = '\n'
    · rw [if_pos hx] at hl
      rcases List.mem_cons.mp hl with rfl | hl'
      · intro c hc
        exact hcur c (List.mem_reverse.mp (mem_of_mem_stripCr hc))
      · exact rlinesAux_mem_no_nl s [] (by simp) l hl'
    · rw [if_neg hx] at hl
      refine rlinesAux_mem_no_nl s (x :: cur) ?_ l hl
      intro c hc
      rcases List.mem_cons.mp hc with rfl | h'
      · exact hx
      · exact hcur c h'

theorem rlines_mem_no_nl (s : List Char) : ∀ l ∈ rlines s, ∀ c ∈ l, c ≠ '\n' :=
  rlinesAux_mem_no_nl s [] (by simp)

theorem afterFirstSpace_subset {L v : List Char} (h : afterFirstSpace L = some v) :
    ∀ c ∈ v, c ∈ L := by
  unfold afterFirstSpace at h
  split at h
  · cases h
    intro c hc
    exact mem_of_mem_dropWhile _ L (mem_of_mem_tail hc)
  · cases h

theorem forwardHost_no_nl (req : List Char) : ∀ c ∈ forwardHost req, c ≠ '\n' := by
  intro c hc
  unfold forwardHost at hc
  have hc' : c ∈ hostHeaderValue req := mem_of_mem_takeWhile _ _ hc
  unfold hostHeaderValue at hc'
  cases hfind : (rlines req).find? isHostLine with
  | none =>
    rw [hfind] at hc'
    have hd : ∀ d ∈ ("127.0.0.1".toList : List Char), d ≠ '\n' := by decide
    exact hd c (by simpa using hc')
  | some L =>
    rw [hfind] at hc'
    cases haf : afterFirstSpace L with
    | none =>
      rw [show ((some L).bind afterFirstSpace) = afterFirstSpace L from rfl, haf] at hc'
      have hd : ∀ d ∈ ("127.0.0.1".toList : List Char), d ≠ '\n' := by decide
      exact hd c (by simpa using hc')
    | some v =>
      rw [show ((some L).bind afterFirstSpace) = afterFirstSpace L from rfl, haf] at hc'
      have hcL : c ∈ L := afterFirstSpace_subset haf c (by simpa using hc')
      exact rlines_mem_no_nl req L (List.mem_of_find?_eq_some hfind) c hcL

theorem startsWithL_append (p l : List Char) : startsWithL (p ++ l) p = true := by
  induction p with
  | nil => cases l <;> rfl
  | cons c p ih => simp [startsWithL, ih]

theorem stripCr_concat (x : List Char) : stripCr (x ++ ['\r']) = x := by
  unfold stripCr
  rw [if_pos (by simp), List.dropLast_concat]

theorem rlinesAux_split (rest : List Char) :
    ∀ (a cur : List Char), (∀ c ∈ a, c ≠ '\n') →
    rlinesAux cur (a ++ '\n' :: rest) =
      stripCr (cur.reverse ++ a) :: rlinesAux [] rest
  | [], cur, _ => by
    simp [rlinesAux]
  | x :: a, cur, ha => by
    have hx : x ≠ '\n' := ha x (by simp)
    show rlinesAux cur (x :: (a ++ '\n' :: rest)) = _
    rw [show rlinesAux cur (x :: (a ++ '\n' :: rest)) =
          if x = '\n' then stripCr cur.reverse :: rlinesAux [] (a ++ '\n' :: rest)
          else rlinesAux (x :: cur) (a ++ '\n' :: rest) from rfl,
        if_neg hx,
        rlinesAux_split rest a (x :: cur) (fun c hc => ha c (by simp [hc]))]
    simp

theorem buildForward_decomp (m p h : List Char) :
    buildForward m p h =
      (m ++ ' ' :: (p ++ " HTTP/1.1\r".toList)) ++ '\n' ::
      (("Host: ".toList ++ (h ++ ['\r'])) ++ '\n' ::
       ("Connection: close\r".toList ++ '\n' :: ('\r' :: '\n' :: ([] : List Char)))) := by
  unfold buildForward
  have e1 : (" ".toList : List Char) = [' '] := by decide
  have e2 : (" HTTP/1.1\r\nHost: ".toList : List Char) =
      " HTTP/1.1\r".toList ++ '\n' :: "Host: ".toList := by decide
  have e3 : ("\r\nConnection: close\r\n\r\n".toList : List Char) =
      '\r' :: '\n' :: ("Connection: close\r".toList ++ '\n' :: ('\r' :: '\n' :: [])) := by decide
  rw [e1, e2, e3]
  simp

theorem rlines_buildForward (m p h : List Char)
    (hm : ∀ c ∈ m, c ≠ '\n') (hp : ∀ c ∈ p, c ≠ '\n') (hh : ∀ c ∈ h, c ≠ '\n') :
    rlines (buildForward m p h) =
      [m ++ ' ' :: (p ++ " HTTP/1.1".toList),
       "Host: ".toList ++ h,
       "Connection: close".toList,
       []] := by
  rw [buildForward_decomp]
  unfold rlines
  have hws : ∀ d ∈ (" HTTP/1.1\r".toList : List Char), d ≠ '\n' := by decide
  have hA : ∀ c ∈ (m ++ ' ' :: (p ++ " HTTP/1.1\r".toList)), c ≠ '\n' := by
    intro c hc
    rcases List.mem_append.mp hc with h1 | h2
    · exact hm c h1
    · rcases List.mem_cons.mp h2 with rfl | h3
      · decide
      · rcases List.mem_append.mp h3 with h4 | h5
        · exact hp c h4
        · exact hws c h5
  have hB : ∀ c ∈ ("Host: ".toList ++ (h ++ ['\r'])), c ≠ '\n' := by
    have hhost : ∀ d ∈ ("Host: ".toList : List Char), d ≠ '\n' := by decide
    intro c hc
    rcases List.mem_append.mp hc with h1 | h2
    · exact hhost c h1
    · rcases List.mem_append.mp h2 with h3 | h4
      · exact hh c h3
      · rw [List.mem_singleton.mp h4]
        decide
  have hC : ∀ c ∈ ("Connection: close\r".toList : List Char), c ≠ '\n' := by decide
  have hD : ∀ c ∈ (['\r'] : List Char), c ≠ '\n' := by decide
  rw [rlinesAux_split _ _ _ hA, rlinesAux_split _ _ _ hB, rlinesAux_split _ _ _ hC,
      show ('\r' :: '\n' :: ([] : List Char)) = ['\r'] ++ '\n' :: [] from rfl,
      rlinesAux_split _ _ _ hD]
  have t1 : (" HTTP/1.1\r".toList : List Char) = " HTTP/1.1".toList ++ ['\r'] := by decide
  have t2 : ("Connection: close\r".toList : List Char) =
      "Connection: close".toList ++ ['\r'] := by decide
  simp only [List.reverse_nil, List.nil_append, t1, t2]
  rw [show (m ++ ' ' :: (p ++ (" HTTP/1.1".toList ++ ['\r']))) =
        (m ++ ' ' :: (p ++ " HTTP/1.1".toList)) ++ ['\r'] by simp,
      show ("Host: ".toList ++ (h ++ ['\r'])) = ("Host: ".toList ++ h) ++ ['\r'] by simp]
  rw [stripCr_concat, stripCr_concat, stripCr_concat,
      show stripCr ['\r'] = [] from by decide]
  rfl

theorem isHostLine_host (h : List Char) : isHostLine ("Host: ".toList ++ h) = true := by
  unfold isHostLine asciiLower
  rw [List.map_append]
  have e1 : ("Host: ".toList : List Char).map lowerChar = "host:".toList ++ [' '] := by decide
  rw [e1, List.append_assoc]
  exact startsWithL_append ("host:".toList) _

theorem host_line_ne_conn (x : List Char) :
    ("Host: ".toList ++ x) ≠ "Connection: close".toList := by
  intro he
  rw [show ("Host: ".toList : List Char) = 'H' :: "ost: ".toList from by decide,
      show ("Connection: close".toList : List Char) = 'C' :: "onnection: close".toList
        from by decide, List.cons_append] at he
  injection he with h1 _
  exact absurd h1 (by decide)

theorem noHostHeader_resolution (req M T : List Char) (r : List (List Char))
    (hfind : (rlines req).find? isHostLine = none)
    (htok : startTokens req = M :: T :: r) :
    forwardHost req = "127.0.0.1".toList ∧ forwardPort req = 80 ∧
    forwardPath req = T := by
  have hv : hostHeaderValue req = "127.0.0.1".toList := by
    unfold hostHeaderValue
    rw [hfind]
    rfl
  refine ⟨?_, ?_, ?_⟩
  · unfold forwardHost
    rw [hv]
    decide
  · unfold forwardPort
    rw [hv]
    decide
  · unfold forwardPath
    rw [htok]
    rfl

theorem applyOp_logs (a : App) (op : AppOp) :
    (applyOp a op).logs = a.logs ∨ ∃ r, (applyOp a op).logs = a.logs ++ [r] := by
  cases op with
  | pushBack r => exact Or.inr ⟨r, rfl⟩
  | moveNext =>
    left
    show (App.next a).logs = a.logs
    unfold App.next
    split <;> rfl
  | movePrevious =>
    left
    show (App.previous a).logs = a.logs
    unfold App.previous
    split <;> rfl

theorem applyOp_logs_prefix (a : App) (op : AppOp) :
    a.logs.length ≤ (applyOp a op).logs.length ∧
    ∀ i, i < a.logs.length → (applyOp a op).logs[i]? = a.logs[i]? := by
  rcases applyOp_logs a op with h | ⟨r, h⟩
  · rw [h]; exact ⟨Nat.le_refl _, fun _ _ => rfl⟩
  · rw [h]
    refine ⟨by simp, fun i hi => ?_⟩
    exact List.getElem?_append_left hi

theorem applyOps_logs_prefix (ops : List AppOp) (a : App) :
    a.logs.length ≤ (applyOps a ops).logs.length ∧
    ∀ i, i < a.logs.length → (applyOps a ops).logs[i]? = a.logs[i]? := by
  induction ops generalizing a with
  | nil => exact ⟨Nat.le_refl _, fun _ _ => rfl⟩
  | cons op ops ih =>
    have h1 := applyOp_logs_prefix a op
    have h2 := ih (applyOp a op)
    refine ⟨Nat.le_trans h1.1 h2.1, fun i hi => ?_⟩
    have : (applyOps a (op :: ops)) = applyOps (applyOp a op) ops := rfl
    rw [this, h2.2 i (Nat.lt_of_lt_of_le hi h1.1), h1.2 i hi]

/-- A sample record used in witness statements. -/
def sampleLog : HttpLog := ⟨[], [], []⟩

/-! ## Claims -/

/-- C8: from any valid cursor index, `previous` never leaves the valid
range downward (no underflow: it decrements exactly by one when
positive), `next` never reaches the log length, and each is a no-op at
its boundary (no wrap-around). -/
theorem c8_cursor_bounds (a : App) (h : a.selected < a.logs.length) :
    a.next.selected < a.logs.length ∧
    a.previous.selected < a.logs.length ∧
    (0 < a.selected → a.previous.selected + 1 = a.selected) ∧
    (a.selected = 0 → a.previous = a) ∧
    (a.selected + 1 = a.logs.length → a.next = a) := by
  unfold App.next App.previous
  refine ⟨?_, ?_, ?_, ?_, ?_⟩
  · split
    · assumption
    · exact h
  · split
    · exact Nat.lt_of_le_of_lt (Nat.sub_le _ _) h
    · exact h
  · intro hpos
    split
    · simpa using Nat.succ_pred_eq_of_pos hpos
    · omega
  · intro h0
    split
    · omega
    · rfl
  · intro hend
    split
    · omega
    · rfl

theorem c8_cursor_bounds_witness :
    (App.mk [sampleLog, sampleLog] 1).next.selected < 2 ∧
    (App.mk [sampleLog, sampleLog] 1).previous.selected < 2 ∧
    (0 < 1 → (App.mk [sampleLog, sampleLog] 1).previous.selected + 1 = 1) ∧
    ((1 : Nat) = 0 → (App.mk [sampleLog, sampleLog] 1).previous = App.mk [sampleLog, sampleLog] 1) ∧
    (1 + 1 = 2 → (App.mk [sampleLog, sampleLog] 1).next = App.mk [sampleLog, sampleLog] 1) :=
  c8_cursor_bounds (App.mk [sampleLog, sampleLog] 1) (by decide)

/-- C9: across every sequence of operations the program performs on the
shared state, the log store only grows at the end; a record already at
index `i` stays at index `i` forever (stable indices, append-only). -/
theorem c9_append_only (a : App) (ops : List AppOp) (i : Nat)
    (h : i < a.logs.length) :
    a.logs.length ≤ (applyOps a ops).logs.length ∧
    (applyOps a ops).logs[i]? = a.logs[i]? := by
  have hp := applyOps_logs_prefix ops a
  exact ⟨hp.1, hp.2 i h⟩

theorem c9_append_only_witness :
    (App.mk [sampleLog] 0).logs.length ≤
      (applyOps (App.mk [sampleLog] 0) [.pushBack sampleLog, .moveNext]).logs.length ∧
    (applyOps (App.mk [sampleLog] 0) [.pushBack sampleLog, .moveNext]).logs[0]? =
      (App.mk [sampleLog] 0).logs[0]? :=
  c9_append_only (App.mk [sampleLog] 0) [.pushBack sampleLog, .moveNext] 0 (by decide)

/-- C4 counterexample: the claim says an accept failure is ignored and
the accept loop continues; in the code (`accept().await.unwrap()`,
line 67) an accept failure panics the listener thread, so the loop does
not continue. -/
theorem c4_accept_counterexample :
    acceptStep (Except.error ()) ≠ AcceptOutcome.handled := by decide

/-- C4 (amended): a failure of `accept` panics the listener thread via
`unwrap`, terminating the accept loop; it is not ignored.  (A bind
failure at line 64 panics the same spawned thread.) -/
theorem c4_accept_amended :
    acceptStep (Except.error ()) = AcceptOutcome.panicked := rfl

/-- C5: Host-header target resolution.  (a) A first-matching header line
`<name> H:P` with `P` a parsable port yields host `H`, port `P`;
(b) with value `H` and no colon, port defaults to 80; (c) with no
matching header line at all, host is `127.0.0.1`, port 80, and the path
is the original request-target unchanged. -/
theorem c5_host_resolution :
    (∀ req nm H P pv, (rlines req).find? isHostLine = some (nm ++ ' ' :: (H ++ ':' :: P)) →
       (∀ c ∈ nm, c ≠ ' ') → (∀ c ∈ H, c ≠ ':') → parseU16 P = some pv →
       forwardHost req = H ∧ forwardPort req = pv) ∧
    (∀ req nm H, (rlines req).find? isHostLine = some (nm ++ ' ' :: H) →
       (∀ c ∈ nm, c ≠ ' ') → (∀ c ∈ H, c ≠ ':') →
       forwardHost req = H ∧ forwardPort req = 80) ∧
    (∀ req M T r, (rlines req).find? isHostLine = none →
       startTokens req = M :: T :: r →
       forwardHost req = "127.0.0.1".toList ∧ forwardPort req = 80 ∧
       forwardPath req = T) := by
  refine ⟨?_, ?_, ?_⟩
  · intro req nm H P pv hfind hnm hH hpv
    have hv := hostHeaderValue_of_find hfind hnm
    constructor
    · unfold forwardHost
      rw [hv]
      exact takeWhile_neq_append ':' H P hH
    · unfold forwardPort
      rw [hv]
      have hsc : secondColonPart (H ++ ':' :: P) = some P := by
        unfold secondColonPart
        rw [if_pos (by simp), dropWhile_neq_append ':' H P hH]
        show some (P.takeWhile (fun c => c ≠ ':')) = some P
        rw [parseU16_takeWhile hpv]
      rw [hsc]
      simp [hpv]
  · intro req nm H hfind hnm hH
    have hv := hostHeaderValue_of_find hfind hnm
    constructor
    · unfold forwardHost
      rw [hv]
      exact takeWhile_neq_all ':' H hH
    · unfold forwardPort
      rw [hv]
      have hsc : secondColonPart H = none := by
        unfold secondColonPart
        rw [if_neg (fun hmem => hH ':' hmem rfl)]
      rw [hsc]
      rfl
  · intro req M T r hfind htok
    exact noHostHeader_resolution req M T r hfind htok

theorem c5_host_resolution_witness :
    (forwardHost plainHostReq = "example.com".toList ∧ forwardPort plainHostReq = 8080) ∧
    (forwardHost hostNoPortReq = "example.com".toList ∧ forwardPort hostNoPortReq = 80) ∧
    (forwardHost noHostReq = "127.0.0.1".toList ∧ forwardPort noHostReq = 80 ∧
     forwardPath noHostReq = "/x".toList) :=
  ⟨c5_host_resolution.1 plainHostReq ("Host:".toList) ("example.com".toList)
      ("8080".toList) 8080 (by decide) (by decide) (by decide) (by decide),
   c5_host_resolution.2.1 hostNoPortReq ("Host:".toList) ("example.com".toList)
      (by decide) (by decide) (by decide),
   c5_host_resolution.2.2 noHostReq ("GET".toList) ("/x".toList) (["HTTP/1.1".toList])
      (by decide) (by decide)⟩

/-- C2 counterexample: for the request line
`GET http://example.com:8080/foo HTTP/1.1` with no Host header, the
code resolves host `127.0.0.1`, port 80 and passes the absolute URI
through as the path — not host `example.com`, port 8080, path `/foo` as
the claim states.  The absolute URI is never parsed; with a Host header
present (`absUriHostReq`) the host comes from that header, not the URI. -/
theorem c2_absuri_counterexample :
    (forwardHost absUriReq = "127.0.0.1".toList ∧ forwardPort absUriReq = 80 ∧
     forwardPath absUriReq = "http://example.com:8080/foo".toList) ∧
    ¬ (forwardHost absUriReq = "example.com".toList ∧ forwardPort absUriReq = 8080 ∧
       forwardPath absUriReq = "/foo".toList) ∧
    forwardHost absUriHostReq = "other.test".toList := by decide

/-- C2 (amended): the request-target is never parsed as an absolute
URI.  Whenever the request line has a target token — even one beginning
with `http://` — that token is used verbatim as the path, and with no
Host header the upstream defaults to host `127.0.0.1`, port 80. -/
theorem c2_absuri_amended (req M T : List Char) (r : List (List Char))
    (htok : startTokens req = M :: T :: r)
    (_hpre : startsWithL T ("http://".toList) = true)
    (hnohost : (rlines req).find? isHostLine = none) :
    forwardPath req = T ∧ forwardHost req = "127.0.0.1".toList ∧ forwardPort req = 80 := by
  have h := noHostHeader_resolution req M T r hnohost htok
  exact ⟨h.2.2, h.1, h.2.1⟩

theorem c2_absuri_amended_witness :
    forwardPath absUriReq = "http://example.com:8080/foo".toList ∧
    forwardHost absUriReq = "127.0.0.1".toList ∧ forwardPort absUriReq = 80 :=
  c2_absuri_amended absUriReq ("GET".toList) ("http://example.com:8080/foo".toList)
    (["HTTP/1.1".toList]) (by decide) (by decide) (by decide)

/-- C3 counterexample: on a frame whose first line yields no tokens, the
classification defaults are the empty string for both method and target
— not `GET` and `/` as the claim states. -/
theorem c3_default_counterexample :
    methodTok bareLineReq = [] ∧ targetTok bareLineReq = [] ∧
    ¬ (methodTok bareLineReq = "GET".toList ∧ targetTok bareLineReq = "/".toList) := by
  decide

/-- C3 (amended): when the first line yields no tokens, the method and
the classification target default to the empty string (not `GET` / `/`);
the forward-strategy path separately defaults to `/`; and the connection
is not failed — the handler proceeds with the forward strategy. -/
theorem c3_default_amended (req : List Char) (net : Net)
    (h : startTokens req = []) :
    methodTok req = [] ∧ targetTok req = [] ∧ forwardPath req = ['/'] ∧
    handle req net = forwardEffects req net := by
  have hm : methodTok req = [] := by unfold methodTok; rw [h]; rfl
  have hb : isConnectReq req = false := by
    unfold isConnectReq
    rw [hm]
    decide
  refine ⟨hm, ?_, ?_, ?_⟩
  · unfold targetTok; rw [h]; rfl
  · unfold forwardPath; rw [h]; rfl
  · simp [handle, hb]

theorem c3_default_amended_witness :
    methodTok bareLineReq = [] ∧ targetTok bareLineReq = [] ∧
    forwardPath bareLineReq = ['/'] ∧
    handle bareLineReq noNet = forwardEffects bareLineReq noNet :=
  c3_default_amended bareLineReq noNet (by decide)

/-- C1 counterexample: a `CONNECT` to an address whose upstream connect
fails still appends one Exchange Record and still writes the 200
acknowledgement to the client (both happen before the connect attempt,
lines 88-96), contradicting the claim of zero records and zero bytes. -/
theorem c1_connect_counterexample :
    appendedRecords (handle connectFailReq noNet) ≠ [] ∧
    clientWrites (handle connectFailReq noNet) ≠ [] := by decide

/-- C1 (amended): for a CONNECT request whose upstream connect fails,
the handler's trace is exactly the acknowledgement write followed by the
tunnel-establishment record — one record appended and the 200
acknowledgement already sent, nothing further. -/
theorem c1_connect_amended (req : List Char) (net : Net)
    (hc : isConnectReq req = true) (hf : net.tunnel = none) :
    handle req net =
      [Effect.writeClient ackBytes,
       Effect.append ⟨"CONNECT ".toList ++ targetTok req, firstLine req,
         tunnelEstablished⟩] := by
  simp [handle, hc, connectEffects, hf]

theorem c1_connect_amended_witness :
    handle connectFailReq noNet =
      [Effect.writeClient ackBytes,
       Effect.append ⟨"CONNECT ".toList ++ targetTok connectFailReq,
         firstLine connectFailReq, tunnelEstablished⟩] :=
  c1_connect_amended connectFailReq noNet (by decide) rfl

/-- C7: the forward strategy appends exactly one record per completed
round trip, with the claimed label, the reconstructed request as request
text, and the CRLF-normalized response as response text; the raw
response is the only client write.  On upstream connect failure the
trace is empty: no record, no response. -/
theorem c7_forward_roundtrip (req : List Char) (net : Net)
    (hnc : isConnectReq req = false) :
    (∀ resp, net.forwardResp = some resp →
      appendedRecords (handle req net) =
        [⟨forwardLabel (methodTok req) (forwardPath req) (forwardHost req),
          buildForward (methodTok req) (forwardPath req) (forwardHost req),
          replCRLF resp⟩] ∧
      clientWrites (handle req net) = [resp]) ∧
    (net.forwardResp = none → handle req net = []) := by
  constructor
  · intro resp hr
    constructor
    · simp [handle, hnc, forwardEffects, hr, appendedRecords]
    · simp [handle, hnc, forwardEffects, hr, clientWrites]
  · intro hr
    simp [handle, hnc, forwardEffects, hr]

theorem c7_forward_roundtrip_witness :
    appendedRecords (handle plainHostReq ⟨none, some respSample⟩) =
      [⟨forwardLabel (methodTok plainHostReq) (forwardPath plainHostReq)
          (forwardHost plainHostReq),
        buildForward (methodTok plainHostReq) (forwardPath plainHostReq)
          (forwardHost plainHostReq),
        replCRLF respSample⟩] ∧
    clientWrites (handle plainHostReq ⟨none, some respSample⟩) = [respSample] :=
  (c7_forward_roundtrip plainHostReq ⟨none, some respSample⟩ (by decide)).1 respSample rfl

/-- C10: classification and target resolution are total on every
character buffer (`from_utf8_lossy` is itself total, so this covers
every byte buffer): every fallible step is defaulted, some method,
target, host, path and port always come out, and the port always fits
in a `u16` (the type `TcpStream::connect((host, port))` requires). -/
theorem c10_parse_total (req : List Char) (net : Net) :
    forwardPort req < 65536 ∧
    (∃ m, methodTok req = m) ∧ (∃ t, targetTok req = t) ∧
    (∃ h, forwardHost req = h) ∧ (∃ p, forwardPath req = p) ∧
    (∃ es, handleRead (some req) net = es) := by
  refine ⟨?_, ⟨_, rfl⟩, ⟨_, rfl⟩, ⟨_, rfl⟩, ⟨_, rfl⟩, ⟨_, rfl⟩⟩
  unfold forwardPort
  cases hsc : secondColonPart (hostHeaderValue req) with
  | none => simp
  | some v =>
    cases hp : parseU16 v with
    | none => simp [hp]
    | some pv =>
      simp only [Option.some_bind, hp, Option.getD_some]
      exact parseU16_lt hp

/-- C6: for every client request, the reconstructed upstream request
(whose shape is `buildForward`, line 142, applied to the resolved
method, path and host) ends in `\r\n\r\n` and contains exactly one
`Host` header line and exactly one `Connection: close` header line, no
matter what headers the original request carried. -/
theorem c6_forward_wellformed (req : List Char) :
    (∃ g, buildForward (methodTok req) (forwardPath req) (forwardHost req) =
       g ++ "\r\n\r\n".toList) ∧
    countHostHeaders (buildForward (methodTok req) (forwardPath req) (forwardHost req)) = 1 ∧
    countConnClose (buildForward (methodTok req) (forwardPath req) (forwardHost req)) = 1 := by
  have hr := rlines_buildForward (methodTok req) (forwardPath req) (forwardHost req)
    (methodTok_no_nl req) (forwardPath_no_nl req) (forwardHost_no_nl req)
  refine ⟨⟨methodTok req ++ " ".toList ++ forwardPath req ++ " HTTP/1.1\r\nHost: ".toList ++
      forwardHost req ++ "\r\nConnection: close".toList, ?_⟩, ?_, ?_⟩
  · unfold buildForward
    rw [show ("\r\nConnection: close\r\n\r\n".toList : List Char) =
          "\r\nConnection: close".toList ++ "\r\n\r\n".toList from by decide]
    simp
  · unfold countHostHeaders
    rw [hr]
    rw [show (([methodTok req ++ ' ' :: (forwardPath req ++ " HTTP/1.1".toList),
          "Host: ".toList ++ forwardHost req, "Connection: close".toList,
          ([] : List Char)]).drop 1) =
        ["Host: ".toList ++ forwardHost req, "Connection: close".toList, []] from rfl]
    rw [List.countP_cons, List.countP_cons, List.countP_cons, List.countP_nil]
    rw [isHostLine_host (forwardHost req),
        show isHostLine ("Connection: close".toList) = false from by decide,
        show isHostLine ([] : List Char) = false from by decide]
    rfl
  · unfold countConnClose
    rw [hr]
    rw [show (([methodTok req ++ ' ' :: (forwardPath req ++ " HTTP/1.1".toList),
          "Host: ".toList ++ forwardHost req, "Connection: close".toList,
          ([] : List Char)]).drop 1) =
        ["Host: ".toList ++ forwardHost req, "Connection: close".toList, []] from rfl]
    rw [List.countP_cons, List.countP_cons, List.countP_cons, List.countP_nil]
    rw [show (decide (("Host: ".toList ++ forwardHost req) = "Connection: close".toList)) =
          false from decide_eq_false (host_line_ne_conn (forwardHost req))]
    rfl

end Belch
